import Mathlib

/-!
Verification of the testing module of the ssll repository (state-space analysis
of spike correlations).  The divergence diagnostic `klic` and the scenario
harness of `src/testing.py` are embedded shallowly over exact real arithmetic:
natural-parameter sequences are lists of rows, the eta map is the list of its
2^N columns, and the module-level state of the `transforms` collaborator is
passed explicitly.  Parts of the Pattern Space component (`transforms`) are not
part of the given sources and are modelled from the specification, as marked.
-/

namespace SSLL

/-- Dot product of two real vectors, as numpy.dot on one-dimensional arrays. -/
def dot (a b : List ℝ) : ℝ := (List.zipWith (fun x y => x * y) a b).sum

/-- Product of a row vector with a matrix stored as the list of its columns:
numpy.dot(theta, transforms.eta_map), yielding one entry per pattern column. -/
def matVec (theta : List ℝ) (eta : List (List ℝ)) : List ℝ :=
  eta.map (fun c => dot theta c)

/-- Modelled from the spec: `transforms.compute_psi`, the Pattern Space
log-partition, is not under the given sources; spec section 4.1 gives
psi(theta) = log of the sum over patterns i of exp(theta . eta_i).  The
max-subtraction prescribed there is for floating-point stability only and is
the identity in exact real arithmetic. -/
noncomputable def compute_psi (eta : List (List ℝ)) (theta : List ℝ) : ℝ :=
  Real.log ((matVec theta eta).map Real.exp).sum

/-- Modelled from the spec: `transforms.enumerate_patterns` is not under the
given sources; spec section 4.1 says enumerate(N) yields all 2^N binary vectors
in increasing integer order, pattern i being the N-bit binary expansion of i.
Its result is bound but never used inside `klic`, exactly as in the source. -/
def enumerate_patterns (N : ℕ) : List (List ℕ) :=
  (List.range (2 ^ N)).map (fun i => (List.range N).map (fun j => i / 2 ^ (N - 1 - j) % 2))

/-- One timestep of the divergence loop of `klic` (src/testing.py lines 63-71):
with phi_q = compute_psi(q_theta[i]), phi_p = compute_psi(p_theta[i]),
log_prob_q = q_theta[i] . eta_map - phi_q and log_prob_p likewise, the result
is the sum over patterns of exp(log_prob_q) * log_prob_q -
exp(log_prob_q) * log_prob_p.  The intermediate names of the source are
inlined. -/
noncomputable def klic_row (eta : List (List ℝ)) (prow qrow : List ℝ) : ℝ :=
  (List.zipWith (fun a b => Real.exp a * a - Real.exp a * b)
    ((matVec qrow eta).map (fun a => a - compute_psi eta qrow))
    ((matVec prow eta).map (fun a => a - compute_psi eta prow))).sum

/-- `klic` from src/testing.py lines 36-73.  The module-level
`transforms.eta_map` read by the source is passed explicitly as `eta`; the `N`
argument is used only for the `transforms.enumerate_patterns(N)` call whose
result `fx` is dead, exactly as in the source. -/
noncomputable def klic (p_theta q_theta : List (List ℝ)) (N : ℕ)
    (eta : List (List ℝ)) : List ℝ :=
  let fx := enumerate_patterns N
  (p_theta.zip q_theta).map (fun r => klic_row eta r.1 r.2)

/-- The per-timestep Kullback-Leibler divergence exactly as the claim states
it: the sum over all patterns x of q(x) * (log q(x) - log p(x)), where
q(x) = exp(q_theta . eta(x) - psi(q_theta)) and likewise for p.  Stated from
the specification's words, for comparison against `klic`. -/
noncomputable def kl_spec (eta : List (List ℝ)) (prow qrow : List ℝ) : ℝ :=
  (eta.map (fun c =>
    Real.exp (dot qrow c - compute_psi eta qrow) *
      (Real.log (Real.exp (dot qrow c - compute_psi eta qrow)) -
        Real.log (Real.exp (dot prow c - compute_psi eta prow))))).sum

/-- The per-timestep divergence computed with base-2 logarithms (bits), as
claim C6 reads the spec: the sum over patterns x of
q(x) * (log2 q(x) - log2 p(x)) with the same exponential-family q and p. -/
noncomputable def kl_bits_spec (eta : List (List ℝ)) (prow qrow : List ℝ) : ℝ :=
  (eta.map (fun c =>
    Real.exp (dot qrow c - compute_psi eta qrow) *
      (Real.logb 2 (Real.exp (dot qrow c - compute_psi eta qrow)) -
        Real.logb 2 (Real.exp (dot prow c - compute_psi eta prow))))).sum

/-- Acceptance predicate of `run_ssasc` (src/testing.py lines 130-133): the
assertion `assertFalse(numpy.any(kld[50:-50] > .01))` passes.  The Python
slice kld[50:-50] is the drop of the first 50 entries followed by the take of
length - 100 entries. -/
def run_ssasc_accepts (kld : List ℝ) : Prop :=
  ¬ ∃ v ∈ (kld.drop 50).take (kld.length - 100), (0.01 : ℝ) < v

/-- numpy.random.randint(lo, hi): a uniform draw from the half-open integer
range [lo, hi).  The draw is modelled by reducing the raw value `r` taken from
the underlying generator stream modulo the range size. -/
def randint (lo hi r : ℕ) : ℕ := lo + r % (hi - lo)

/-- Modelled from the spec: `transforms.compute_D` is not under the given
sources; spec section 4.1 gives dimension(N, O) as the sum for k = 1..O of
C(N, k). -/
def compute_D (N O : ℕ) : ℕ :=
  ((List.range O).map (fun k => Nat.choose N (k + 1))).sum

/-- Count of sinusoidally driven channels drawn by `test_fo_varying`
(src/testing.py line 157): numpy.random.randint(0, N + 1). -/
def fo_varying_n_cells (N r : ℕ) : ℕ := randint 0 (N + 1) r

/-- Count of sinusoidally driven channels drawn by `test_so_variable`
(src/testing.py line 199): numpy.random.randint(0, N / 2), where N / 2 is
Python-2 floor integer division. -/
def so_variable_n_cells (N r : ℕ) : ℕ := randint 0 (N / 2) r

/-- Count of sinusoidally driven interaction terms drawn by `test_so_variable`
(src/testing.py line 210): numpy.random.randint(0, D - N) with
D = compute_D(N, 2). -/
def so_variable_n_inter (N r : ℕ) : ℕ := randint 0 (compute_D N 2 - N) r

/-- Count of sinusoidally driven channels drawn by `test_to_variable`
(src/testing.py line 251): numpy.random.randint(0, N / 2). -/
def to_variable_n_cells (N r : ℕ) : ℕ := randint 0 (N / 2) r

/-- Count of sinusoidally driven interaction terms drawn by `test_to_variable`
(src/testing.py line 262): numpy.random.randint(0, D - N) with
D = compute_D(N, 3). -/
def to_variable_n_inter (N r : ℕ) : ℕ := randint 0 (compute_D N 3 - N) r

/-- The constant theta baseline of the harness (src/testing.py line 82). -/
def theta_base : ℝ := -3

/-- `wave` from src/testing.py lines 275-279, evaluated at millisecond step k:
the harness passes T * 1e-3 seconds and samples at 1e-3 steps, so entry k is
A * sin(2 * pi * f * (k / 1000) + phi). -/
noncomputable def wave (A f phi : ℝ) (k : ℕ) : ℝ :=
  A * Real.sin (2 * Real.pi * f * ((k : ℝ) * (1 / 1000)) + phi)

/-- Overwriting one column of a timestep-by-channel matrix, as the slice
assignment theta[:, idx] = g of the source. -/
def overwrite_col (th : ℕ → ℕ → ℝ) (idx : ℕ) (g : ℕ → ℝ) : ℕ → ℕ → ℝ :=
  fun t j => if j = idx then g t else th t j

/-- Ground-truth theta construction of `test_fo_varying` (src/testing.py lines
154-166): every entry starts at theta_base; then for each selected cell the
whole column is overwritten with theta_base + wave(A, f, phi, .).  `cells` is
the list returned by random.sample (stdlib random generator) and `draws` the
per-cell (phi, A, f) triples taken from the numpy generator seeded with
wave_seed. -/
noncomputable def fo_varying_theta (cells : List ℕ) (draws : List (ℝ × ℝ × ℝ)) :
    ℕ → ℕ → ℝ :=
  (cells.zip draws).foldl
    (fun th cd => overwrite_col th cd.1
      (fun t => theta_base + wave cd.2.2.1 cd.2.2.2 cd.2.1 t))
    (fun _ _ => theta_base)

/-- Error kinds of the specification's error-handling design (section 7); only
DimensionMismatch is exercised by the divergence diagnostic. -/
inductive EstimatorError where
  | dimensionMismatch
  | configurationError
  deriving DecidableEq

/-- Modelled from the spec: the dimension-checked log-partition.  Spec section
7 states that DimensionMismatch is raised when a parameter vector length
disagrees with D for the active (N, O), at the point of first use; the check
lives in the `transforms` module, which is not under the given sources. -/
noncomputable def compute_psiE (D : ℕ) (eta : List (List ℝ)) (theta : List ℝ) :
    Except EstimatorError ℝ :=
  if theta.length = D then Except.ok (compute_psi eta theta)
  else Except.error EstimatorError.dimensionMismatch

/-- One timestep of `klic` with the spec's error behaviour: the source (lines
64-65) uses the q vector first and the p vector second, so a mismatched q row
faults before a mismatched p row. -/
noncomputable def klic_rowE (D : ℕ) (eta : List (List ℝ)) (prow qrow : List ℝ) :
    Except EstimatorError ℝ := do
  let phi_q ← compute_psiE D eta qrow
  let phi_p ← compute_psiE D eta prow
  Except.ok ((List.zipWith (fun a b => Real.exp a * a - Real.exp a * b)
    ((matVec qrow eta).map (fun a => a - phi_q))
    ((matVec prow eta).map (fun a => a - phi_p))).sum)

/-- `klic` with the spec's error propagation: the timestep loop stops at the
first faulting row. -/
noncomputable def klicE :
    List (List ℝ) → List (List ℝ) → ℕ → List (List ℝ) →
      Except EstimatorError (List ℝ)
  | p :: ps, q :: qs, D, eta => do
      let v ← klic_rowE D eta p q
      let rest ← klicE ps qs D eta
      Except.ok (v :: rest)
  | _, _, _, _ => Except.ok []

/-- Eta map of the pattern space (N = 2, O = 2), columns indexed by the
patterns 00, 01, 10, 11: sufficient statistics (x1, x2, x1 * x2). -/
def eta22 : List (List ℝ) := [[0, 0, 0], [0, 1, 0], [1, 0, 0], [1, 1, 1]]

/-- Eta map of the pattern space (N = 3, O = 1), columns indexed by the
patterns 000..111: sufficient statistics (x1, x2, x3). -/
def eta31 : List (List ℝ) :=
  [[0, 0, 0], [0, 0, 1], [0, 1, 0], [0, 1, 1],
   [1, 0, 0], [1, 0, 1], [1, 1, 0], [1, 1, 1]]

/-- Eta map of the pattern space (N = 1, O = 1), columns indexed by the
patterns 0 and 1. -/
def eta11 : List (List ℝ) := [[0], [1]]

section Helpers

variable {α β γ δ : Type}

lemma list_map_ext (f g : α → β) (l : List α) (h : ∀ x, f x = g x) :
    l.map f = l.map g := by
  rw [funext h]

lemma zipWith_map_same (f : β → γ → δ) (g : α → β) (h : α → γ) (l : List α) :
    List.zipWith f (l.map g) (l.map h) = l.map (fun x => f (g x) (h x)) := by
  induction l with
  | nil => simp
  | cons a t ih => simp [ih]

lemma sum_map_sub (l : List α) (f g : α → ℝ) :
    (l.map (fun x => f x - g x)).sum = (l.map f).sum - (l.map g).sum := by
  induction l with
  | nil => simp
  | cons a t ih => simp [ih]; ring

lemma sum_map_mul_left (l : List α) (f : α → ℝ) (c : ℝ) :
    (l.map (fun x => c * f x)).sum = c * (l.map f).sum := by
  induction l with
  | nil => simp
  | cons a t ih => simp [ih]; ring

lemma sum_map_div (l : List α) (f : α → ℝ) (d : ℝ) :
    (l.map (fun x => f x / d)).sum = (l.map f).sum / d := by
  induction l with
  | nil => simp
  | cons a t ih => simp [ih]; ring

end Helpers

lemma klic_row_eq_map (eta : List (List ℝ)) (p q : List ℝ) :
    klic_row eta p q =
      (eta.map (fun c =>
        Real.exp (dot q c - compute_psi eta q) *
          ((dot q c - compute_psi eta q) - (dot p c - compute_psi eta p)))).sum := by
  unfold klic_row matVec
  rw [List.map_map, List.map_map, zipWith_map_same]
  refine congrArg List.sum (list_map_ext _ _ _ (fun c => ?_))
  simp only [Function.comp]
  ring

lemma klic_cons (a b : List ℝ) (p q : List (List ℝ)) (N : ℕ)
    (eta : List (List ℝ)) :
    klic (a :: p) (b :: q) N eta = klic_row eta a b :: klic p q N eta := by
  simp [klic]

lemma exp_lb (a b : ℝ) : Real.exp a - Real.exp b ≤ Real.exp a * (a - b) := by
  have h := Real.add_one_le_exp (b - a)
  have hp : 0 < Real.exp a := Real.exp_pos a
  have h2 : Real.exp (b - a) * Real.exp a = Real.exp b := by
    rw [← Real.exp_add]; ring_nf
  nlinarith [mul_le_mul_of_nonneg_right h hp.le]

lemma sum_exp_dist (eta : List (List ℝ)) (theta : List ℝ) :
    (eta.map (fun c => Real.exp (dot theta c - compute_psi eta theta))).sum =
      if eta = [] then 0 else 1 := by
  cases eta with
  | nil => simp
  | cons c cs =>
      have hS : 0 < ((matVec theta (c :: cs)).map Real.exp).sum := by
        apply List.sum_pos
        · intro x hx
          simp only [List.mem_map] at hx
          obtain ⟨y, _, rfl⟩ := hx
          exact Real.exp_pos y
        · simp [matVec]
      have hrw : ∀ x : List ℝ,
          Real.exp (dot theta x - compute_psi (c :: cs) theta) =
            Real.exp (dot theta x) /
              ((matVec theta (c :: cs)).map Real.exp).sum := by
        intro x
        rw [Real.exp_sub, compute_psi, Real.exp_log hS]
      rw [list_map_ext _ _ _ hrw, sum_map_div]
      have : ((c :: cs).map (fun x => Real.exp (dot theta x))).sum =
          ((matVec theta (c :: cs)).map Real.exp).sum := by
        simp only [matVec, List.map_map]
        rfl
      rw [this, div_self (ne_of_gt hS)]
      simp

lemma klic_row_self (eta : List (List ℝ)) (a : List ℝ) :
    klic_row eta a a = 0 := by
  rw [klic_row_eq_map]
  have h : ∀ c : List ℝ,
      Real.exp (dot a c - compute_psi eta a) *
        ((dot a c - compute_psi eta a) - (dot a c - compute_psi eta a)) = 0 := by
    intro c; simp
  rw [list_map_ext _ _ _ h]
  simp

lemma klic_row_nonneg (eta : List (List ℝ)) (p q : List ℝ) :
    0 ≤ klic_row eta p q := by
  rw [klic_row_eq_map]
  have hle : ∀ c ∈ eta,
      Real.exp (dot q c - compute_psi eta q) -
          Real.exp (dot p c - compute_psi eta p) ≤
        Real.exp (dot q c - compute_psi eta q) *
          ((dot q c - compute_psi eta q) - (dot p c - compute_psi eta p)) :=
    fun c _ => exp_lb _ _
  have h1 := List.sum_le_sum hle
  rw [sum_map_sub, sum_exp_dist, sum_exp_dist] at h1
  rcases eq_or_ne eta [] with h | h
  · subst h; simp
  · simp only [h, if_neg h] at h1
    simpa using le_trans (by simp) h1

/-- C2: the divergence of a parameter sequence against an identical sequence
is the all-zeros array of the sequence's length, exactly. -/
theorem klic_self_eq_zero (t : List (List ℝ)) (N : ℕ) (eta : List (List ℝ)) :
    klic t t N eta = List.replicate t.length 0 := by
  induction t with
  | nil => simp [klic]
  | cons a ts ih =>
      rw [klic_cons, klic_row_self, ih]
      simp [List.replicate_succ]

/-- C10: every entry of the array returned by klic is non-negative, for any
pair of natural-parameter sequences over the same eta map (Gibbs'
inequality in exact real arithmetic). -/
theorem klic_nonneg (p q : List (List ℝ)) (N : ℕ) (eta : List (List ℝ)) :
    ∀ v ∈ klic p q N eta, 0 ≤ v := by
  intro v hv
  simp only [klic, List.mem_map] at hv
  obtain ⟨r, hr, rfl⟩ := hv
  exact klic_row_nonneg eta r.1 r.2

/-- Witness for C10 at a concrete input: the single divergence entry of a
one-timestep pair over the (N = 1, O = 1) pattern space is non-negative. -/
theorem klic_nonneg_witness : 0 ≤ klic_row eta11 [(0 : ℝ)] [(1 : ℝ)] :=
  klic_nonneg [[(0 : ℝ)]] [[(1 : ℝ)]] 1 eta11 _ (by simp [klic])

/-- C1: for natural-parameter sequences of equal length over the eta map of
the active pattern space (2^N columns), klic returns a length-T array whose
entry at timestep t is exactly the spec's Kullback-Leibler divergence
KL(q_t parallel p_t) over the exponential-family distributions induced by the
two parameter rows. -/
theorem klic_matches_spec_kl (p q : List (List ℝ)) (N : ℕ)
    (eta : List (List ℝ)) (hT : p.length = q.length)
    (heta : eta.length = 2 ^ N) :
    (klic p q N eta).length = p.length ∧
      klic p q N eta = (p.zip q).map (fun r => kl_spec eta r.1 r.2) := by
  constructor
  · simp [klic, List.length_zip, hT]
  · have hpt : ∀ pr qr : List ℝ, klic_row eta pr qr = kl_spec eta pr qr := by
      intro pr qr
      rw [klic_row_eq_map]
      unfold kl_spec
      refine congrArg List.sum (list_map_ext _ _ _ (fun c => ?_))
      rw [Real.log_exp, Real.log_exp]
    simp only [klic]
    exact list_map_ext _ _ _ (fun r => hpt r.1 r.2)

/-- Witness for C1 at a concrete input: a one-timestep pair over the
(N = 1, O = 1) pattern space. -/
theorem klic_matches_spec_kl_witness :
    (klic [[(0 : ℝ)]] [[(1 : ℝ)]] 1 eta11).length = [[(0 : ℝ)]].length ∧
      klic [[(0 : ℝ)]] [[(1 : ℝ)]] 1 eta11 =
        ([[(0 : ℝ)]].zip [[(1 : ℝ)]]).map (fun r => kl_spec eta11 r.1 r.2) :=
  klic_matches_spec_kl [[(0 : ℝ)]] [[(1 : ℝ)]] 1 eta11 rfl rfl

/-- C3: the harness assertion of run_ssasc passes exactly when every
divergence entry at indices 50 through length - 51 inclusive is at most 0.01;
entries in the 50-sample edge windows are outside the slice and so never
affect acceptance. -/
theorem run_ssasc_accepts_iff (kld : List ℝ) :
    run_ssasc_accepts kld ↔
      ∀ (i : ℕ) (h : i < kld.length), 50 ≤ i → i + 51 ≤ kld.length →
        kld.get ⟨i, h⟩ ≤ 0.01 := by
  unfold run_ssasc_accepts
  push_neg
  constructor
  · intro H i h h50 h51
    have hlen : ((kld.drop 50).take (kld.length - 100)).length =
        kld.length - 100 := by
      simp only [List.length_take, List.length_drop]
      omega
    have hj : i - 50 < ((kld.drop 50).take (kld.length - 100)).length := by
      omega
    have he : ((kld.drop 50).take (kld.length - 100)).get ⟨i - 50, hj⟩ =
        kld.get ⟨i, h⟩ := by
      simp only [List.get_eq_getElem, List.getElem_take, List.getElem_drop]
      congr 1
      omega
    have hmem : kld.get ⟨i, h⟩ ∈ (kld.drop 50).take (kld.length - 100) := by
      rw [← he]
      exact List.get_mem _ _ _
    exact H _ hmem
  · intro H v hv
    rw [List.mem_iff_getElem] at hv
    obtain ⟨j, hj, rfl⟩ := hv
    have hjl : j < kld.length - 100 := by
      simp only [List.length_take, List.length_drop] at hj
      omega
    have hh : 50 + j < kld.length := by omega
    have he : ((kld.drop 50).take (kld.length - 100)).get
        ⟨j, hj⟩ = kld.get ⟨50 + j, hh⟩ := by
      simp only [List.get_eq_getElem, List.getElem_take, List.getElem_drop]
    rw [List.get_eq_getElem] at he
    rw [he]
    exact H (50 + j) hh (by omega) (by omega)

/-- Witness for C3 at a concrete input: an all-zero divergence sequence of
length 500 is accepted. -/
theorem run_ssasc_accepts_iff_witness :
    run_ssasc_accepts (List.replicate 500 (0 : ℝ)) :=
  (run_ssasc_accepts_iff (List.replicate 500 (0 : ℝ))).mpr
    (fun i h _ _ => by
      rw [List.get_eq_getElem, List.getElem_replicate]
      norm_num)

lemma randint_lt (k r : ℕ) (h : 0 < k) : randint 0 k r < k := by
  simpa [randint] using Nat.mod_lt r h

lemma randint_unique (k v : ℕ) (hv : v < k) :
    ∃! s, s < k ∧ randint 0 k s = v := by
  refine ⟨v, ⟨hv, by simp [randint, Nat.mod_eq_of_lt hv]⟩, ?_⟩
  intro y hy
  obtain ⟨hyk, hyv⟩ := hy
  simpa [randint, Nat.mod_eq_of_lt hyk] using hyv

/-- C8: in the second- and third-order time-varying scenarios the channel
count is drawn uniformly from the half-open range 0 to N / 2 (floor integer
division) and the interaction count uniformly from 0 to D - N: every draw
lands in the range, and over one generator period each value of the range is
produced exactly once. -/
theorem so_to_variable_draws_uniform (N r : ℕ) (hc : 0 < N / 2)
    (hso : N < compute_D N 2) (hto : N < compute_D N 3) :
    (so_variable_n_cells N r < N / 2 ∧
      so_variable_n_inter N r < compute_D N 2 - N ∧
      to_variable_n_cells N r < N / 2 ∧
      to_variable_n_inter N r < compute_D N 3 - N) ∧
    (∀ v, v < N / 2 → ∃! s, s < N / 2 ∧ so_variable_n_cells N s = v) ∧
    (∀ v, v < compute_D N 2 - N →
      ∃! s, s < compute_D N 2 - N ∧ so_variable_n_inter N s = v) ∧
    (∀ v, v < N / 2 → ∃! s, s < N / 2 ∧ to_variable_n_cells N s = v) ∧
    (∀ v, v < compute_D N 3 - N →
      ∃! s, s < compute_D N 3 - N ∧ to_variable_n_inter N s = v) := by
  have h2 : 0 < compute_D N 2 - N := Nat.sub_pos_of_lt hso
  have h3 : 0 < compute_D N 3 - N := Nat.sub_pos_of_lt hto
  exact ⟨⟨randint_lt _ _ hc, randint_lt _ _ h2, randint_lt _ _ hc,
      randint_lt _ _ h3⟩,
    fun v hv => randint_unique _ _ hv, fun v hv => randint_unique _ _ hv,
    fun v hv => randint_unique _ _ hv, fun v hv => randint_unique _ _ hv⟩

/-- Witness for C8 at a concrete input, N = 4 with raw generator value 7. -/
theorem so_to_variable_draws_uniform_witness :
    (0 < 4 / 2) ∧ (4 < compute_D 4 2) ∧ (4 < compute_D 4 3) ∧
    ((so_variable_n_cells 4 7 < 4 / 2 ∧
      so_variable_n_inter 4 7 < compute_D 4 2 - 4 ∧
      to_variable_n_cells 4 7 < 4 / 2 ∧
      to_variable_n_inter 4 7 < compute_D 4 3 - 4) ∧
    (∀ v, v < 4 / 2 → ∃! s, s < 4 / 2 ∧ so_variable_n_cells 4 s = v) ∧
    (∀ v, v < compute_D 4 2 - 4 →
      ∃! s, s < compute_D 4 2 - 4 ∧ so_variable_n_inter 4 s = v) ∧
    (∀ v, v < 4 / 2 → ∃! s, s < 4 / 2 ∧ to_variable_n_cells 4 s = v) ∧
    (∀ v, v < compute_D 4 3 - 4 →
      ∃! s, s < compute_D 4 3 - 4 ∧ to_variable_n_inter 4 s = v)) :=
  ⟨by decide, by decide, by decide,
    so_to_variable_draws_uniform 4 7 (by decide) (by decide) (by decide)⟩

/-- Counterexample to C5: in the second-order time-varying scenario with
N = 2 the sampled counts of driven channels and driven interaction terms are
both 0 (shown here at the concrete raw generator value 0), so the count of
time-varying terms is not at least 1 for every exercised N. -/
theorem so_variable_no_driven_terms_at_two :
    so_variable_n_cells 2 0 = 0 ∧ so_variable_n_inter 2 0 = 0 ∧
      ¬ 1 ≤ so_variable_n_cells 2 0 + so_variable_n_inter 2 0 := by
  decide

/-- C5 as amended: the sampled counts of driven channels and interaction
terms in the second-order time-varying scenario with N = 2 are 0 for every
raw generator value, so no channel or interaction term is ever sinusoidally
driven there; at least one driven term is therefore not guaranteed. -/
theorem so_variable_counts_always_zero_at_two (r : ℕ) :
    so_variable_n_cells 2 r = 0 ∧ so_variable_n_inter 2 r = 0 := by
  constructor
  · show randint 0 (2 / 2) r = 0
    simp [randint, Nat.mod_one]
  · show randint 0 (compute_D 2 2 - 2) r = 0
    have h : compute_D 2 2 - 2 = 1 := rfl
    rw [h]
    simp [randint, Nat.mod_one]

/-- C4: the ground-truth theta of test_fo_varying is not a function of the
seeds alone — with the numpy-drawn quantities held fixed (one driven cell,
phase pi/2, amplitude 1), two possible return values of the unseeded
random.sample call produce different theta sequences. -/
theorem fo_varying_theta_not_seed_determined :
    fo_varying_theta [0] [(Real.pi / 2, 1, 0)] ≠
      fo_varying_theta [1] [(Real.pi / 2, 1, 0)] := by
  intro h
  have h00 := congrFun (congrFun h 0) 0
  simp [fo_varying_theta, overwrite_col, wave, theta_base,
    Real.sin_pi_div_two] at h00

/-- C9: when any parameter row passed to the divergence diagnostic has a
length disagreeing with the dimension D of the active pattern space, the
dimension-checked klic reports DimensionMismatch (the q vector of a timestep
is checked first, then the p vector, as in the source). -/
theorem klicE_dimension_mismatch (p q : List (List ℝ)) (D : ℕ)
    (eta : List (List ℝ)) (hT : p.length = q.length)
    (hbad : (∃ r ∈ p, r.length ≠ D) ∨ (∃ r ∈ q, r.length ≠ D)) :
    klicE p q D eta = Except.error EstimatorError.dimensionMismatch := by
  induction p generalizing q with
  | nil =>
      have hq : q = [] := List.length_eq_zero.mp hT.symm
      subst hq
      simp at hbad
  | cons a ps ih =>
      cases q with
      | nil => simp at hT
      | cons b qs =>
          by_cases hb : b.length = D
          · by_cases ha : a.length = D
            · have hbad' : (∃ r ∈ ps, r.length ≠ D) ∨
                  (∃ r ∈ qs, r.length ≠ D) := by
                rcases hbad with ⟨r, hr, hrd⟩ | ⟨r, hr, hrd⟩
                · rcases List.mem_cons.mp hr with rfl | hr2
                  · exact absurd ha hrd
                  · exact Or.inl ⟨r, hr2, hrd⟩
                · rcases List.mem_cons.mp hr with rfl | hr2
                  · exact absurd hb hrd
                  · exact Or.inr ⟨r, hr2, hrd⟩
              have hrec := ih qs (by simpa using hT) hbad'
              simp [klicE, klic_rowE, compute_psiE, ha, hb, hrec,
                Bind.bind, Except.bind]
            · simp [klicE, klic_rowE, compute_psiE, ha, hb,
                Bind.bind, Except.bind]
          · simp [klicE, klic_rowE, compute_psiE, hb,
                Bind.bind, Except.bind]

/-- Witness for C9 at a concrete input: rows of length 2 against the
(N = 1, O = 1) pattern space of dimension D = 1 fault with
DimensionMismatch. -/
theorem klicE_dimension_mismatch_witness :
    klicE [[(0 : ℝ), 0]] [[(0 : ℝ), 0]] 1 eta11 =
      Except.error EstimatorError.dimensionMismatch :=
  klicE_dimension_mismatch [[(0 : ℝ), 0]] [[(0 : ℝ), 0]] 1 eta11 rfl
    (Or.inl ⟨[0, 0], by simp, by simp⟩)

lemma klic_single (p q : List ℝ) (N : ℕ) (eta : List (List ℝ)) :
    klic [p] [q] N eta = [klic_row eta p q] := by
  simp [klic]

lemma psi_eta11_p : compute_psi eta11 [(0 : ℝ)] = Real.log 2 := by
  simp [compute_psi, matVec, dot, eta11]
  norm_num

lemma psi_eta11_q : compute_psi eta11 [Real.log 3] = Real.log 4 := by
  have h3 : Real.exp (Real.log 3) = 3 := Real.exp_log (by norm_num)
  simp [compute_psi, matVec, dot, eta11, h3]
  norm_num

lemma psi_eta22_p : compute_psi eta22 [(0 : ℝ), 0, 0] = Real.log 4 := by
  simp [compute_psi, matVec, dot, eta22]
  norm_num

lemma psi_eta22_q :
    compute_psi eta22 [(0 : ℝ), 0, Real.log 3] = Real.log 6 := by
  have h3 : Real.exp (Real.log 3) = 3 := Real.exp_log (by norm_num)
  simp [compute_psi, matVec, dot, eta22, h3]
  norm_num

lemma psi_eta31_p : compute_psi eta31 [(0 : ℝ), 0, 0] = Real.log 8 := by
  simp [compute_psi, matVec, dot, eta31]
  norm_num

lemma psi_eta31_q :
    compute_psi eta31 [(0 : ℝ), 0, Real.log 3] = Real.log 16 := by
  have h3 : Real.exp (Real.log 3) = 3 := Real.exp_log (by norm_num)
  simp [compute_psi, matVec, dot, eta31, h3]
  norm_num

lemma klic_row_eval11 :
    klic_row eta11 [(0 : ℝ)] [Real.log 3] =
      3 / 4 * Real.log 3 - Real.log 2 := by
  rw [klic_row_eq_map]
  simp only [psi_eta11_q, psi_eta11_p]
  simp only [eta11, List.map_cons, List.map_nil, List.sum_cons, List.sum_nil,
    dot, List.zipWith_cons_cons, List.zipWith_nil_left, mul_zero, mul_one,
    zero_mul, one_mul, add_zero, zero_add]
  have e1 : Real.exp (0 - Real.log 4) = 1 / 4 := by
    rw [Real.exp_sub, Real.exp_zero,
      Real.exp_log (show (0 : ℝ) < 4 by norm_num)]
  have e2 : Real.exp (Real.log 3 - Real.log 4) = 3 / 4 := by
    rw [Real.exp_sub, Real.exp_log (show (0 : ℝ) < 3 by norm_num),
      Real.exp_log (show (0 : ℝ) < 4 by norm_num)]
  rw [e1, e2]
  have l4 : Real.log 4 = 2 * Real.log 2 := by
    rw [show (4 : ℝ) = 2 ^ 2 by norm_num, Real.log_pow]
    push_cast
    ring
  rw [l4]
  ring

lemma kl_bits_eval11 :
    kl_bits_spec eta11 [(0 : ℝ)] [Real.log 3] =
      (3 / 4 * Real.log 3 - Real.log 2) / Real.log 2 := by
  unfold kl_bits_spec
  simp only [psi_eta11_q, psi_eta11_p]
  simp only [eta11, List.map_cons, List.map_nil, List.sum_cons, List.sum_nil,
    dot, List.zipWith_cons_cons, List.zipWith_nil_left, mul_zero, mul_one,
    zero_mul, one_mul, add_zero, zero_add]
  simp only [Real.logb, Real.log_exp]
  have e1 : Real.exp (0 - Real.log 4) = 1 / 4 := by
    rw [Real.exp_sub, Real.exp_zero,
      Real.exp_log (show (0 : ℝ) < 4 by norm_num)]
  have e2 : Real.exp (Real.log 3 - Real.log 4) = 3 / 4 := by
    rw [Real.exp_sub, Real.exp_log (show (0 : ℝ) < 3 by norm_num),
      Real.exp_log (show (0 : ℝ) < 4 by norm_num)]
  rw [e1, e2]
  have l4 : Real.log 4 = 2 * Real.log 2 := by
    rw [show (4 : ℝ) = 2 ^ 2 by norm_num, Real.log_pow]
    push_cast
    ring
  have h2 : Real.log 2 ≠ 0 := ne_of_gt (Real.log_pos (by norm_num))
  rw [l4]
  field_simp
  ring

lemma klic_row_eval22 :
    klic_row eta22 [(0 : ℝ), 0, 0] [(0 : ℝ), 0, Real.log 3] =
      Real.log 2 - Real.log 3 / 2 := by
  rw [klic_row_eq_map]
  simp only [psi_eta22_q, psi_eta22_p]
  simp only [eta22, List.map_cons, List.map_nil, List.sum_cons, List.sum_nil,
    dot, List.zipWith_cons_cons, List.zipWith_nil_left, mul_zero, mul_one,
    zero_mul, one_mul, add_zero, zero_add]
  have e1 : Real.exp (0 - Real.log 6) = 1 / 6 := by
    rw [Real.exp_sub, Real.exp_zero,
      Real.exp_log (show (0 : ℝ) < 6 by norm_num)]
  have e2 : Real.exp (Real.log 3 - Real.log 6) = 3 / 6 := by
    rw [Real.exp_sub, Real.exp_log (show (0 : ℝ) < 3 by norm_num),
      Real.exp_log (show (0 : ℝ) < 6 by norm_num)]
  rw [e1, e2]
  have l4 : Real.log 4 = 2 * Real.log 2 := by
    rw [show (4 : ℝ) = 2 ^ 2 by norm_num, Real.log_pow]
    push_cast
    ring
  have l6 : Real.log 6 = Real.log 2 + Real.log 3 := by
    rw [show (6 : ℝ) = 2 * 3 by norm_num,
      Real.log_mul (by norm_num) (by norm_num)]
  rw [l4, l6]
  ring

lemma klic_row_eval31 :
    klic_row eta31 [(0 : ℝ), 0, 0] [(0 : ℝ), 0, Real.log 3] =
      3 / 4 * Real.log 3 - Real.log 2 := by
  rw [klic_row_eq_map]
  simp only [psi_eta31_q, psi_eta31_p]
  simp only [eta31, List.map_cons, List.map_nil, List.sum_cons, List.sum_nil,
    dot, List.zipWith_cons_cons, List.zipWith_nil_left, mul_zero, mul_one,
    zero_mul, one_mul, add_zero, zero_add]
  have e1 : Real.exp (0 - Real.log 16) = 1 / 16 := by
    rw [Real.exp_sub, Real.exp_zero,
      Real.exp_log (show (0 : ℝ) < 16 by norm_num)]
  have e2 : Real.exp (Real.log 3 - Real.log 16) = 3 / 16 := by
    rw [Real.exp_sub, Real.exp_log (show (0 : ℝ) < 3 by norm_num),
      Real.exp_log (show (0 : ℝ) < 16 by norm_num)]
  rw [e1, e2]
  have l16 : Real.log 16 = 4 * Real.log 2 := by
    rw [show (16 : ℝ) = 2 ^ 4 by norm_num, Real.log_pow]
    push_cast
    ring
  have l8 : Real.log 8 = 3 * Real.log 2 := by
    rw [show (8 : ℝ) = 2 ^ 3 by norm_num, Real.log_pow]
    push_cast
    ring
  rw [l16, l8]
  ring

/-- C6 as amended: klic computes the divergence with natural logarithms, so
its per-timestep values are in nats: every entry equals log 2 times the
base-2 (bits) divergence of the same timestep. -/
theorem klic_nats_eq_log2_mul_bits (p q : List (List ℝ)) (N : ℕ)
    (eta : List (List ℝ)) :
    klic p q N eta =
      (p.zip q).map (fun r => Real.log 2 * kl_bits_spec eta r.1 r.2) := by
  have hpt : ∀ pr qr : List ℝ,
      klic_row eta pr qr = Real.log 2 * kl_bits_spec eta pr qr := by
    intro pr qr
    rw [klic_row_eq_map]
    unfold kl_bits_spec
    rw [← sum_map_mul_left]
    refine congrArg List.sum (list_map_ext _ _ _ (fun c => ?_))
    simp only [Real.logb, Real.log_exp]
    have h2 : Real.log 2 ≠ 0 := ne_of_gt (Real.log_pos (by norm_num))
    field_simp
  simp only [klic]
  exact list_map_ext _ _ _ (fun r => hpt r.1 r.2)

/-- Counterexample to C6: over the (N = 1, O = 1) pattern space at
p_theta = ((0)) and q_theta = ((log 3)), the value returned by klic differs
from the base-2 (bits) divergence of the same input, so klic does not use
base-2 logarithms. -/
theorem klic_not_base2 :
    klic [[(0 : ℝ)]] [[Real.log 3]] 1 eta11 ≠
      [kl_bits_spec eta11 [(0 : ℝ)] [Real.log 3]] := by
  rw [klic_single, klic_row_eval11, kl_bits_eval11]
  intro h
  rw [List.cons.injEq] at h
  have hv := h.1
  have ha : (0 : ℝ) < Real.log 2 := Real.log_pos (by norm_num)
  rw [eq_div_iff (ne_of_gt ha)] at hv
  have hz := mul_eq_zero.mp
    (show (3 / 4 * Real.log 3 - Real.log 2) * (Real.log 2 - 1) = 0 by
      have hr : (3 / 4 * Real.log 3 - Real.log 2) * (Real.log 2 - 1) =
          (3 / 4 * Real.log 3 - Real.log 2) * Real.log 2 -
            (3 / 4 * Real.log 3 - Real.log 2) := by ring
      rw [hr, hv, sub_self])
  rcases hz with hz | hz
  · have h27 : Real.log 27 = 3 * Real.log 3 := by
      rw [show (27 : ℝ) = 3 ^ 3 by norm_num, Real.log_pow]
      push_cast
      ring
    have h16 : Real.log 16 = 4 * Real.log 2 := by
      rw [show (16 : ℝ) = 2 ^ 4 by norm_num, Real.log_pow]
      push_cast
      ring
    have hlt : Real.log 16 < Real.log 27 :=
      Real.log_lt_log (by norm_num) (by norm_num)
    linarith
  · have hd9 := Real.log_two_lt_d9
    have hlt1 : (0.6931471808 : ℝ) < 1 := by norm_num
    linarith

/-- C7 as amended: the result of klic does not depend on its explicit N
argument (whose only use, the enumerate_patterns binding, is dead); it is a
function of the two parameter sequences and of the module-level eta map. -/
theorem klic_independent_of_N (p q : List (List ℝ)) (N M : ℕ)
    (eta : List (List ℝ)) : klic p q N eta = klic p q M eta := rfl

/-- Counterexample to C7: with p_theta, q_theta and N all fixed, klic returns
different values depending on whether the module-level Pattern Space was most
recently initialised with (N' = 2, O' = 2) or with (N' = 3, O' = 1) - two
pattern spaces sharing the dimension D = 3. -/
theorem klic_depends_on_global_eta :
    klic [[(0 : ℝ), 0, 0]] [[(0 : ℝ), 0, Real.log 3]] 2 eta22 ≠
      klic [[(0 : ℝ), 0, 0]] [[(0 : ℝ), 0, Real.log 3]] 2 eta31 := by
  rw [klic_single, klic_single, klic_row_eval22, klic_row_eval31]
  intro h
  rw [List.cons.injEq] at h
  have hv := h.1
  have h256 : Real.log 256 = 8 * Real.log 2 := by
    rw [show (256 : ℝ) = 2 ^ 8 by norm_num, Real.log_pow]
    push_cast
    ring
  have h243 : Real.log 243 = 5 * Real.log 3 := by
    rw [show (243 : ℝ) = 3 ^ 5 by norm_num, Real.log_pow]
    push_cast
    ring
  have hlt : Real.log 243 < Real.log 256 :=
    Real.log_lt_log (by norm_num) (by norm_num)
  linarith

end SSLL
